import Mathlib

/-!
Shallow embedding of the node-metrics collection pipeline of
`prometheus-slurm-exporter` (`nodes.go`).

Modelling conventions:
* Go `float64` metric values are modelled as exact rationals `ℚ`
  (the specification treats them as plain numbers; no rounding behaviour
  is claimed anywhere).
* Go maps (`map[string]*PartitionMetrics`, `map[string]float64`) are
  modelled as insertion-ordered association lists; Go map lookup/update
  semantics is reproduced by `alistLookup` / the upsert operations below.
* `json.Unmarshal` is external library code; `parseNodeMetrics` therefore
  takes the decode *result* (`none` = unmarshal failure, `some r` = the
  decoded `sinfoResponse`).
* The prometheus emission channel is modelled as the list of metric
  samples sent on it, in send order.
-/

/-- `NodeMetrics` from `nodes.go`: one row per cluster node. -/
structure NodeMetrics where
  hostname : String
  cpus : ℚ
  realMemory : ℚ
  freeMemory : ℚ
  partitions : List String
  state : String
  allocMemory : ℚ
  allocCpus : ℚ
  idleCpus : ℚ
  weight : ℚ
  cpuLoad : ℚ
  architecture : String
deriving DecidableEq, Repr

/-- `sinfoResponse` from `nodes.go`. The `meta` block is
`map[string]interface{}` in Go; it is never read by the collector, so it
is modelled opaquely. -/
structure sinfoResponse where
  meta : Unit
  errors : List String
  nodes : List NodeMetrics
deriving DecidableEq

/-- The two failure modes of `parseNodeMetrics`: a `json.Unmarshal`
failure, or `errors.New(squeue.Errors[0])` when the payload reports
source errors. -/
inductive ParseError where
  | unmarshalError : ParseError
  | sourceError : String → ParseError
deriving DecidableEq

/-- `parseNodeMetrics` from `nodes.go` (lines 32–46), over the decode
result: a failed unmarshal propagates the decode error; a non-empty
`Errors` list fails with the first entry; otherwise the nodes are
returned unmodified. -/
def parseNodeMetrics (decoded : Option sinfoResponse) :
    Except ParseError (List NodeMetrics) :=
  match decoded with
  | none => .error .unmarshalError
  | some squeue =>
    match squeue.errors with
    | [] => .ok squeue.nodes
    | e :: _ => .error (.sourceError e)

/-- `PartitionMetrics` from `nodes.go` (lines 48–57), field order as in
the source. -/
@[ext] structure PartitionMetrics where
  Cpus : ℚ
  RealMemory : ℚ
  FreeMemory : ℚ
  AllocMemory : ℚ
  AllocCpus : ℚ
  CpuLoad : ℚ
  IdleCpus : ℚ
  Weight : ℚ
deriving DecidableEq, Repr

instance : Zero PartitionMetrics := ⟨⟨0, 0, 0, 0, 0, 0, 0, 0⟩⟩

instance : Add PartitionMetrics :=
  ⟨fun a b => ⟨a.Cpus + b.Cpus, a.RealMemory + b.RealMemory,
    a.FreeMemory + b.FreeMemory, a.AllocMemory + b.AllocMemory,
    a.AllocCpus + b.AllocCpus, a.CpuLoad + b.CpuLoad,
    a.IdleCpus + b.IdleCpus, a.Weight + b.Weight⟩⟩

@[simp] theorem PartitionMetrics.zero_Cpus : (0 : PartitionMetrics).Cpus = 0 := rfl
@[simp] theorem PartitionMetrics.zero_RealMemory : (0 : PartitionMetrics).RealMemory = 0 := rfl
@[simp] theorem PartitionMetrics.zero_FreeMemory : (0 : PartitionMetrics).FreeMemory = 0 := rfl
@[simp] theorem PartitionMetrics.zero_AllocMemory : (0 : PartitionMetrics).AllocMemory = 0 := rfl
@[simp] theorem PartitionMetrics.zero_AllocCpus : (0 : PartitionMetrics).AllocCpus = 0 := rfl
@[simp] theorem PartitionMetrics.zero_CpuLoad : (0 : PartitionMetrics).CpuLoad = 0 := rfl
@[simp] theorem PartitionMetrics.zero_IdleCpus : (0 : PartitionMetrics).IdleCpus = 0 := rfl
@[simp] theorem PartitionMetrics.zero_Weight : (0 : PartitionMetrics).Weight = 0 := rfl

@[simp] theorem PartitionMetrics.add_Cpus (a b : PartitionMetrics) :
    (a + b).Cpus = a.Cpus + b.Cpus := rfl
@[simp] theorem PartitionMetrics.add_RealMemory (a b : PartitionMetrics) :
    (a + b).RealMemory = a.RealMemory + b.RealMemory := rfl
@[simp] theorem PartitionMetrics.add_FreeMemory (a b : PartitionMetrics) :
    (a + b).FreeMemory = a.FreeMemory + b.FreeMemory := rfl
@[simp] theorem PartitionMetrics.add_AllocMemory (a b : PartitionMetrics) :
    (a + b).AllocMemory = a.AllocMemory + b.AllocMemory := rfl
@[simp] theorem PartitionMetrics.add_AllocCpus (a b : PartitionMetrics) :
    (a + b).AllocCpus = a.AllocCpus + b.AllocCpus := rfl
@[simp] theorem PartitionMetrics.add_CpuLoad (a b : PartitionMetrics) :
    (a + b).CpuLoad = a.CpuLoad + b.CpuLoad := rfl
@[simp] theorem PartitionMetrics.add_IdleCpus (a b : PartitionMetrics) :
    (a + b).IdleCpus = a.IdleCpus + b.IdleCpus := rfl
@[simp] theorem PartitionMetrics.add_Weight (a b : PartitionMetrics) :
    (a + b).Weight = a.Weight + b.Weight := rfl

instance : AddCommMonoid PartitionMetrics where
  add_assoc a b c := by ext <;> simp [add_assoc]
  zero_add a := by ext <;> simp
  add_zero a := by ext <;> simp
  add_comm a b := by ext <;> simp [add_comm]
  nsmul := nsmulRec

/-- The eight accumulated fields of a node, as a `PartitionMetrics`
record (the per-iteration contribution of the loop body of
`fetchNodePartitionMetrics`). -/
def nodeFields (node : NodeMetrics) : PartitionMetrics :=
  ⟨node.cpus, node.realMemory, node.freeMemory, node.allocMemory,
   node.allocCpus, node.cpuLoad, node.idleCpus, node.weight⟩

/-- The eight `partition.X += node.X` statements of
`fetchNodePartitionMetrics` (lines 68–75). -/
def addNodeToPartition (partition : PartitionMetrics) (node : NodeMetrics) :
    PartitionMetrics :=
  { Cpus := partition.Cpus + node.cpus
    RealMemory := partition.RealMemory + node.realMemory
    FreeMemory := partition.FreeMemory + node.freeMemory
    AllocMemory := partition.AllocMemory + node.allocMemory
    AllocCpus := partition.AllocCpus + node.allocCpus
    CpuLoad := partition.CpuLoad + node.cpuLoad
    IdleCpus := partition.IdleCpus + node.idleCpus
    Weight := partition.Weight + node.weight }

/-- Go map lookup on the association-list model. -/
def alistLookup {α : Type} : List (String × α) → String → Option α
  | [], _ => none
  | (k, v) :: rest, q => if k = q then some v else alistLookup rest q

/-- The key list of the association-list model of a Go map. -/
def alistKeys {α : Type} (m : List (String × α)) : List String :=
  m.map Prod.fst

/-- One iteration of the inner loop of `fetchNodePartitionMetrics`
(lines 62–76): look the partition up, create a zero entry when absent,
then accumulate the node's fields. -/
def upsertPartition (partitions : List (String × PartitionMetrics))
    (p : String) (node : NodeMetrics) : List (String × PartitionMetrics) :=
  match partitions with
  | [] => [(p, addNodeToPartition 0 node)]
  | (k, v) :: rest =>
    if k = p then (k, addNodeToPartition v node) :: rest
    else (k, v) :: upsertPartition rest p node

/-- One iteration of the outer loop of `fetchNodePartitionMetrics`:
fold the node into every partition it lists. -/
def partitionStep (partitions : List (String × PartitionMetrics))
    (node : NodeMetrics) : List (String × PartitionMetrics) :=
  node.partitions.foldl (fun partitions p => upsertPartition partitions p node)
    partitions

/-- `fetchNodePartitionMetrics` from `nodes.go` (lines 59–79). -/
def fetchNodePartitionMetrics (nodes : List NodeMetrics) :
    List (String × PartitionMetrics) :=
  nodes.foldl partitionStep []

/-- `CpuSummaryMetrics` from `nodes.go` (lines 81–86). -/
structure CpuSummaryMetrics where
  Total : ℚ
  Idle : ℚ
  Load : ℚ
  PerState : List (String × ℚ)
deriving DecidableEq, Repr

/-- Go's `m[k] += v` on a `map[string]float64`: bump an existing entry,
or insert `v` (zero value plus `v`) when the key is absent. -/
def bumpState (m : List (String × ℚ)) (k : String) (v : ℚ) :
    List (String × ℚ) :=
  match m with
  | [] => [(k, v)]
  | (k', v') :: rest =>
    if k' = k then (k', v' + v) :: rest else (k', v') :: bumpState rest k v

/-- The loop body of `fetchNodeTotalCpuMetrics` (lines 92–97). -/
def cpuStep (s : CpuSummaryMetrics) (node : NodeMetrics) : CpuSummaryMetrics :=
  { Total := s.Total + node.cpus
    Idle := s.Idle + node.idleCpus
    Load := s.Load + node.cpuLoad
    PerState := bumpState s.PerState node.state node.cpus }

/-- `fetchNodeTotalCpuMetrics` from `nodes.go` (lines 88–99). -/
def fetchNodeTotalCpuMetrics (nodes : List NodeMetrics) : CpuSummaryMetrics :=
  nodes.foldl cpuStep { Total := 0, Idle := 0, Load := 0, PerState := [] }

/-- `MemSummaryMetrics` from `nodes.go` (lines 101–105). -/
structure MemSummaryMetrics where
  AllocMemory : ℚ
  FreeMemory : ℚ
  RealMemory : ℚ
deriving DecidableEq, Repr

/-- The loop body of `fetchNodeTotalMemMetrics` (lines 109–113). -/
def memStep (s : MemSummaryMetrics) (node : NodeMetrics) : MemSummaryMetrics :=
  { AllocMemory := s.AllocMemory + node.allocMemory
    FreeMemory := s.FreeMemory + node.freeMemory
    RealMemory := s.RealMemory + node.realMemory }

/-- `fetchNodeTotalMemMetrics` from `nodes.go` (lines 107–115). -/
def fetchNodeTotalMemMetrics (nodes : List NodeMetrics) : MemSummaryMetrics :=
  nodes.foldl memStep { AllocMemory := 0, FreeMemory := 0, RealMemory := 0 }

/-- One metric sample sent on the prometheus collection channel; one
constructor per `prometheus.Desc` of `NodesCollector`, plus the error
counter. -/
inductive Metric where
  | partitionCpus (partition : String) (value : ℚ)
  | partitionRealMemory (partition : String) (value : ℚ)
  | partitionFreeMemory (partition : String) (value : ℚ)
  | partitionAllocMemory (partition : String) (value : ℚ)
  | partitionAllocCpus (partition : String) (value : ℚ)
  | partitionIdleCpus (partition : String) (value : ℚ)
  | partitionWeight (partition : String) (value : ℚ)
  | partitionCpuLoad (partition : String) (value : ℚ)
  | totalCpus (value : ℚ)
  | totalIdleCpus (value : ℚ)
  | totalCpuLoad (value : ℚ)
  | cpusPerState (state : String) (value : ℚ)
  | totalRealMemory (value : ℚ)
  | totalFreeMemory (value : ℚ)
  | totalAllocMemory (value : ℚ)
  | nodeScrapeErrors (count : ℕ)
deriving DecidableEq, Repr

/-- The eight zero-suppressed sends of the partition loop of `Collect`
(`nodes.go` lines 209–234), in source order. -/
def partitionSamples (partition : String) (metric : PartitionMetrics) :
    List Metric :=
  (if metric.Cpus > 0 then [Metric.partitionCpus partition metric.Cpus] else []) ++
  (if metric.RealMemory > 0 then [Metric.partitionRealMemory partition metric.RealMemory] else []) ++
  (if metric.FreeMemory > 0 then [Metric.partitionFreeMemory partition metric.FreeMemory] else []) ++
  (if metric.AllocMemory > 0 then [Metric.partitionAllocMemory partition metric.AllocMemory] else []) ++
  (if metric.AllocCpus > 0 then [Metric.partitionAllocCpus partition metric.AllocCpus] else []) ++
  (if metric.IdleCpus > 0 then [Metric.partitionIdleCpus partition metric.IdleCpus] else []) ++
  (if metric.Weight > 0 then [Metric.partitionWeight partition metric.Weight] else []) ++
  (if metric.CpuLoad > 0 then [Metric.partitionCpuLoad partition metric.CpuLoad] else [])

/-- `NodesCollector.Collect` from `nodes.go` (lines 191–248), as a
function of the fetch result and the current error-counter value.
Returns the list of samples sent on the channel (in send order) and the
new error-counter value.  The `defer` of line 192 sends the counter's
value at return time, so a failed cycle emits the incremented value and
the counter is always the last sample. -/
def Collect (fetched : Except String (Option sinfoResponse))
    (errorCount : ℕ) : List Metric × ℕ :=
  match fetched with
  | .error _ => ([Metric.nodeScrapeErrors (errorCount + 1)], errorCount + 1)
  | .ok payload =>
    match parseNodeMetrics payload with
    | .error _ => ([Metric.nodeScrapeErrors (errorCount + 1)], errorCount + 1)
    | .ok nodeMetrics =>
      let partitionMetrics := fetchNodePartitionMetrics nodeMetrics
      let nodeCpuMetrics := fetchNodeTotalCpuMetrics nodeMetrics
      let memMetrics := fetchNodeTotalMemMetrics nodeMetrics
      ((partitionMetrics.flatMap fun pm => partitionSamples pm.1 pm.2) ++
       [Metric.totalCpus nodeCpuMetrics.Total,
        Metric.totalIdleCpus nodeCpuMetrics.Idle,
        Metric.totalCpuLoad nodeCpuMetrics.Load] ++
       (nodeCpuMetrics.PerState.map fun sv => Metric.cpusPerState sv.1 sv.2) ++
       [Metric.totalRealMemory memMetrics.RealMemory,
        Metric.totalFreeMemory memMetrics.FreeMemory,
        Metric.totalAllocMemory memMetrics.AllocMemory] ++
       [Metric.nodeScrapeErrors errorCount],
       errorCount)

/-- Whether a `Collect` cycle terminates in one of its two failure
branches (fetch failure at line 196, parse failure at line 202). -/
def cycleFails (fetched : Except String (Option sinfoResponse)) : Bool :=
  match fetched with
  | .error _ => true
  | .ok payload =>
    match parseNodeMetrics payload with
    | .error _ => true
    | .ok _ => false

/-- The mutable state of a `NodesCollector` (`nodes.go` lines 117–141)
relevant to collection: the payload held by the `AtomicThrottledCache`,
the result the `SlurmFetcher` produces when invoked, the number of
underlying `Fetch` invocations performed so far, and the error counter. -/
structure NodesCollector where
  cache : Option (Option sinfoResponse)
  fetcherResult : Except String (Option sinfoResponse)
  fetchCount : ℕ
  nodeScrapeErrors : ℕ

/-- One invocation of `NodesCollector.Collect` on the collector state:
per `nodes.go` line 195 the payload is obtained by calling
`nc.fetcher.Fetch()` directly (one underlying fetch per invocation);
`nc.cache` is not consulted anywhere in the method. -/
def CollectRun (nc : NodesCollector) : List Metric × NodesCollector :=
  let r := Collect nc.fetcherResult nc.nodeScrapeErrors
  (r.1, { nc with fetchCount := nc.fetchCount + 1, nodeScrapeErrors := r.2 })

/-! ### Helper lemmas: characterizing the partition aggregation -/

/-- Number of occurrences of `q` in a list of partition names. -/
def countOcc (q : String) : List String → ℕ
  | [] => 0
  | p :: rest => (if p = q then 1 else 0) + countOcc q rest

/-- Total number of times partition `q` is listed across a node
sequence. -/
def partitionHits (nodes : List NodeMetrics) (q : String) : ℕ :=
  (nodes.map fun n => countOcc q n.partitions).sum

/-- The order-insensitive total accumulated for partition `q`: each node
contributes its eight fields once per listing of `q`. -/
def partitionContribution (nodes : List NodeMetrics) (q : String) :
    PartitionMetrics :=
  (nodes.map fun n => countOcc q n.partitions • nodeFields n).sum

theorem addNodeToPartition_eq (v : PartitionMetrics) (n : NodeMetrics) :
    addNodeToPartition v n = v + nodeFields n := by
  ext <;> rfl

theorem alistLookup_upsertPartition (m : List (String × PartitionMetrics))
    (p : String) (node : NodeMetrics) (q : String) :
    alistLookup (upsertPartition m p node) q =
      if q = p then some ((alistLookup m p).getD 0 + nodeFields node)
      else alistLookup m q := by
  induction m with
  | nil =>
    by_cases h : q = p
    · subst h
      simp [upsertPartition, alistLookup, addNodeToPartition_eq]
    · have h' : ¬(p = q) := fun hh => h hh.symm
      simp [upsertPartition, alistLookup, h, h']
  | cons kv rest ih =>
    obtain ⟨k, v⟩ := kv
    by_cases hkp : k = p
    · by_cases hkq : k = q
      · subst hkp; subst hkq
        simp [upsertPartition, alistLookup, addNodeToPartition_eq]
      · subst hkp
        have hqk : ¬(q = k) := fun h => hkq h.symm
        simp [upsertPartition, alistLookup, hkq, hqk, addNodeToPartition_eq]
    · by_cases hkq : k = q
      · subst hkq
        simp [upsertPartition, alistLookup, hkp]
      · simp [upsertPartition, alistLookup, hkp, hkq, ih]

theorem alistLookup_partitionFold (node : NodeMetrics) (parts : List String)
    (m : List (String × PartitionMetrics)) (q : String) :
    alistLookup (parts.foldl (fun acc p => upsertPartition acc p node) m) q =
      if countOcc q parts = 0 then alistLookup m q
      else some ((alistLookup m q).getD 0 +
        countOcc q parts • nodeFields node) := by
  induction parts generalizing m with
  | nil => simp [countOcc]
  | cons p rest ih =>
    simp only [List.foldl_cons]
    rw [ih, alistLookup_upsertPartition]
    by_cases hpq : p = q
    · subst hpq
      have hcount : countOcc p (p :: rest) = 1 + countOcc p rest := by
        simp [countOcc]
      rw [hcount]
      by_cases hc : countOcc p rest = 0
      · simp [hc]
      · have h1 : ¬(1 + countOcc p rest = 0) := by omega
        simp only [if_neg hc, if_neg h1, eq_self_iff_true, if_true,
          Option.getD_some]
        rw [add_nsmul, one_nsmul, add_assoc]
    · have hqp : ¬(q = p) := fun h => hpq h.symm
      simp [countOcc, hpq, hqp]

theorem partitionContribution_eq_zero (nodes : List NodeMetrics) (q : String)
    (h : partitionHits nodes q = 0) : partitionContribution nodes q = 0 := by
  induction nodes with
  | nil => simp [partitionContribution]
  | cons n rest ih =>
    simp only [partitionHits, List.map_cons, List.sum_cons] at h
    have h1 : countOcc q n.partitions = 0 := by omega
    have h2 : partitionHits rest q = 0 := by
      simp only [partitionHits]; omega
    simp only [partitionContribution, List.map_cons, List.sum_cons, h1,
      zero_nsmul, zero_add]
    exact ih h2

theorem alistLookup_foldl_partitionStep (nodes : List NodeMetrics)
    (m : List (String × PartitionMetrics)) (q : String) :
    alistLookup (nodes.foldl partitionStep m) q =
      if partitionHits nodes q = 0 then alistLookup m q
      else some ((alistLookup m q).getD 0 + partitionContribution nodes q) := by
  induction nodes generalizing m with
  | nil => simp [partitionHits, partitionContribution]
  | cons node rest ih =>
    simp only [List.foldl_cons]
    rw [ih]
    have hstep : alistLookup (partitionStep m node) q =
        if countOcc q node.partitions = 0 then alistLookup m q
        else some ((alistLookup m q).getD 0 +
          countOcc q node.partitions • nodeFields node) :=
      alistLookup_partitionFold node node.partitions m q
    have hhits : partitionHits (node :: rest) q =
        countOcc q node.partitions + partitionHits rest q := by
      simp [partitionHits]
    have hcontrib : partitionContribution (node :: rest) q =
        countOcc q node.partitions • nodeFields node +
          partitionContribution rest q := by
      simp [partitionContribution]
    by_cases hc : countOcc q node.partitions = 0
    · by_cases hr : partitionHits rest q = 0
      · simp [hstep, hc, hr, hhits, hr]
      · simp [hstep, hc, hr, hhits, hcontrib, zero_nsmul]
    · by_cases hr : partitionHits rest q = 0
      · have : ¬(partitionHits (node :: rest) q = 0) := by omega
        simp [hstep, hc, hr, hhits, hcontrib, this,
          partitionContribution_eq_zero rest q hr]
      · have : ¬(partitionHits (node :: rest) q = 0) := by omega
        simp [hstep, hc, hr, hhits, hcontrib, this, add_assoc]

/-- Lookup characterization of `fetchNodePartitionMetrics`: partition
`q` is present iff some node lists it, and its value is the
order-insensitive sum of the contributing nodes' fields. -/
theorem alistLookup_fetchNodePartitionMetrics (nodes : List NodeMetrics)
    (q : String) :
    alistLookup (fetchNodePartitionMetrics nodes) q =
      if partitionHits nodes q = 0 then none
      else some (partitionContribution nodes q) := by
  rw [fetchNodePartitionMetrics, alistLookup_foldl_partitionStep]
  simp [alistLookup]

/-! ### Generic association-list lemmas -/

@[simp] theorem alistKeys_nil {α : Type} :
    alistKeys ([] : List (String × α)) = [] := rfl

@[simp] theorem alistKeys_cons {α : Type} (k : String) (v : α)
    (rest : List (String × α)) :
    alistKeys ((k, v) :: rest) = k :: alistKeys rest := rfl

theorem alistKeys_mem_iff {α : Type} (m : List (String × α)) (q : String) :
    q ∈ alistKeys m ↔ (alistLookup m q).isSome := by
  induction m with
  | nil => simp [alistLookup]
  | cons kv rest ih =>
    obtain ⟨k, v⟩ := kv
    by_cases h : k = q
    · subst h; simp [alistLookup]
    · have h' : ¬(q = k) := fun hh => h hh.symm
      simp [alistLookup, h, h', ih]

theorem alistLookup_mem {α : Type} (m : List (String × α)) (q : String) (v : α)
    (h : alistLookup m q = some v) : (q, v) ∈ m := by
  induction m with
  | nil => simp [alistLookup] at h
  | cons kv rest ih =>
    obtain ⟨k, w⟩ := kv
    by_cases hk : k = q
    · subst hk
      simp [alistLookup] at h
      simp [h]
    · simp only [alistLookup, if_neg hk] at h
      simp [ih h]

theorem mem_alistLookup {α : Type} (m : List (String × α))
    (hnd : (alistKeys m).Nodup) {q : String} {v : α}
    (hmem : (q, v) ∈ m) : alistLookup m q = some v := by
  induction m with
  | nil => simp at hmem
  | cons kv rest ih =>
    obtain ⟨k, w⟩ := kv
    simp only [alistKeys_cons, List.nodup_cons] at hnd
    rcases List.mem_cons.mp hmem with heq | hrest
    · rw [Prod.ext_iff] at heq
      obtain ⟨rfl, rfl⟩ := heq
      simp [alistLookup]
    · have hqk : ¬(k = q) := by
        intro hkq; subst hkq
        exact hnd.1 (List.mem_map.mpr ⟨(k, v), hrest, rfl⟩)
      simp only [alistLookup, if_neg hqk]
      exact ih hnd.2 hrest

/-! ### Distinctness of the partition keys -/

theorem alistKeys_upsertPartition (m : List (String × PartitionMetrics))
    (p : String) (node : NodeMetrics) :
    alistKeys (upsertPartition m p node) =
      if p ∈ alistKeys m then alistKeys m else alistKeys m ++ [p] := by
  induction m with
  | nil => simp [upsertPartition]
  | cons kv rest ih =>
    obtain ⟨k, v⟩ := kv
    by_cases hk : k = p
    · subst hk
      simp [upsertPartition]
    · have hpk : ¬(p = k) := fun h => hk h.symm
      by_cases hp : p ∈ alistKeys rest
      · simp [upsertPartition, hk, hpk, hp, ih]
      · simp [upsertPartition, hk, hpk, hp, ih]

theorem nodupKeys_upsertPartition (m : List (String × PartitionMetrics))
    (p : String) (node : NodeMetrics)
    (h : (alistKeys m).Nodup) :
    (alistKeys (upsertPartition m p node)).Nodup := by
  rw [alistKeys_upsertPartition]
  by_cases hp : p ∈ alistKeys m
  · simpa [hp]
  · simp [hp, List.nodup_append, h]

theorem nodupKeys_partitionFold (node : NodeMetrics) (parts : List String)
    (m : List (String × PartitionMetrics)) (h : (alistKeys m).Nodup) :
    (alistKeys
      (parts.foldl (fun acc p => upsertPartition acc p node) m)).Nodup := by
  induction parts generalizing m with
  | nil => simpa
  | cons p rest ih =>
    simp only [List.foldl_cons]
    exact ih _ (nodupKeys_upsertPartition m p node h)

theorem nodupKeys_fetchNodePartitionMetrics (nodes : List NodeMetrics) :
    (alistKeys (fetchNodePartitionMetrics nodes)).Nodup := by
  have key : ∀ m, (alistKeys m).Nodup →
      (alistKeys (nodes.foldl partitionStep m)).Nodup := by
    induction nodes with
    | nil => intro m h; simpa
    | cons node rest ih =>
      intro m h
      simp only [List.foldl_cons]
      exact ih _ (nodupKeys_partitionFold node node.partitions m h)
  simpa [fetchNodePartitionMetrics] using key [] (by simp)

/-! ### Occurrence counts and key membership -/

theorem countOcc_eq_zero_iff (q : String) (parts : List String) :
    countOcc q parts = 0 ↔ q ∉ parts := by
  induction parts with
  | nil => simp [countOcc]
  | cons p rest ih =>
    by_cases h : p = q
    · subst h
      simp [countOcc]
    · have h' : ¬(q = p) := fun hh => h hh.symm
      simp [countOcc, h, h', ih]

theorem partitionHits_eq_zero_iff (nodes : List NodeMetrics) (q : String) :
    partitionHits nodes q = 0 ↔ ∀ n ∈ nodes, q ∉ n.partitions := by
  simp [partitionHits, List.sum_eq_zero_iff, countOcc_eq_zero_iff]

/-! ### Helper lemmas: characterizing the CPU/memory summaries -/

/-- Number of nodes in the sequence whose state is exactly `s`. -/
def stateHits (nodes : List NodeMetrics) (s : String) : ℕ :=
  (nodes.map fun n => if n.state = s then 1 else 0).sum

/-- CPU total accumulated in the per-state bucket `s`. -/
def stateCpuSum (nodes : List NodeMetrics) (s : String) : ℚ :=
  (nodes.map fun n => if n.state = s then n.cpus else 0).sum

theorem alistLookup_bumpState (m : List (String × ℚ)) (k : String) (v : ℚ)
    (q : String) :
    alistLookup (bumpState m k v) q =
      if q = k then some ((alistLookup m k).getD 0 + v)
      else alistLookup m q := by
  induction m with
  | nil =>
    by_cases h : q = k
    · subst h; simp [bumpState, alistLookup]
    · have h' : ¬(k = q) := fun hh => h hh.symm
      simp [bumpState, alistLookup, h, h']
  | cons kv rest ih =>
    obtain ⟨k', v'⟩ := kv
    by_cases hk : k' = k
    · by_cases hq : k' = q
      · subst hk; subst hq
        simp [bumpState, alistLookup]
      · subst hk
        have hqk : ¬(q = k') := fun h => hq h.symm
        simp [bumpState, alistLookup, hq, hqk]
    · by_cases hq : k' = q
      · subst hq
        simp [bumpState, alistLookup, hk]
      · simp [bumpState, alistLookup, hk, hq, ih]

theorem stateCpuSum_eq_zero (nodes : List NodeMetrics) (s : String)
    (h : stateHits nodes s = 0) : stateCpuSum nodes s = 0 := by
  induction nodes with
  | nil => simp [stateCpuSum]
  | cons n rest ih =>
    simp only [stateHits, List.map_cons, List.sum_cons] at h
    by_cases hs : n.state = s
    · simp [hs] at h
    · have hr : stateHits rest s = 0 := by
        simp only [stateHits]; omega
      simp [stateCpuSum, hs, ih hr]
      simp only [stateCpuSum] at ih
      exact ih hr

theorem perState_foldl_cpuStep (nodes : List NodeMetrics)
    (init : CpuSummaryMetrics) (s : String) :
    alistLookup (nodes.foldl cpuStep init).PerState s =
      if stateHits nodes s = 0 then alistLookup init.PerState s
      else some ((alistLookup init.PerState s).getD 0 + stateCpuSum nodes s) := by
  induction nodes generalizing init with
  | nil => simp [stateHits, stateCpuSum]
  | cons node rest ih =>
    simp only [List.foldl_cons]
    rw [ih]
    have hbump : alistLookup (cpuStep init node).PerState s =
        if s = node.state
        then some ((alistLookup init.PerState s).getD 0 + node.cpus)
        else alistLookup init.PerState s := by
      simp only [cpuStep]
      rw [alistLookup_bumpState]
      by_cases h : s = node.state
      · subst h; simp
      · simp [h]
    have hhits : stateHits (node :: rest) s =
        (if node.state = s then 1 else 0) + stateHits rest s := by
      simp [stateHits]
    have hsum : stateCpuSum (node :: rest) s =
        (if node.state = s then node.cpus else 0) + stateCpuSum rest s := by
      simp [stateCpuSum]
    by_cases hs : node.state = s
    · have hs' : s = node.state := hs.symm
      by_cases hr : stateHits rest s = 0
      · rw [if_pos hr, hbump, if_pos hs', hhits, hsum, if_pos hs, if_pos hs,
          stateCpuSum_eq_zero rest s hr, hr]
        norm_num
      · rw [if_neg hr, hbump, if_pos hs', hhits, hsum, if_pos hs, if_pos hs]
        have hne : ¬((1 : ℕ) + stateHits rest s = 0) := by omega
        rw [if_neg hne, Option.getD_some, add_assoc]
    · have hs' : ¬(s = node.state) := fun h => hs h.symm
      rw [hbump, if_neg hs', hhits, hsum, if_neg hs, if_neg hs]
      simp

/-- Lookup characterization of the per-state CPU mapping. -/
theorem perState_fetchNodeTotalCpuMetrics (nodes : List NodeMetrics)
    (s : String) :
    alistLookup (fetchNodeTotalCpuMetrics nodes).PerState s =
      if stateHits nodes s = 0 then none
      else some (stateCpuSum nodes s) := by
  rw [fetchNodeTotalCpuMetrics, perState_foldl_cpuStep]
  simp [alistLookup]

theorem foldl_cpuStep_fields (nodes : List NodeMetrics)
    (init : CpuSummaryMetrics) :
    (nodes.foldl cpuStep init).Total =
        init.Total + (nodes.map NodeMetrics.cpus).sum ∧
    (nodes.foldl cpuStep init).Idle =
        init.Idle + (nodes.map NodeMetrics.idleCpus).sum ∧
    (nodes.foldl cpuStep init).Load =
        init.Load + (nodes.map NodeMetrics.cpuLoad).sum := by
  induction nodes generalizing init with
  | nil => simp
  | cons node rest ih =>
    simp only [List.foldl_cons, List.map_cons, List.sum_cons]
    obtain ⟨h1, h2, h3⟩ := ih (cpuStep init node)
    rw [h1, h2, h3]
    simp [cpuStep, add_assoc]

theorem foldl_memStep_fields (nodes : List NodeMetrics)
    (init : MemSummaryMetrics) :
    (nodes.foldl memStep init).AllocMemory =
        init.AllocMemory + (nodes.map NodeMetrics.allocMemory).sum ∧
    (nodes.foldl memStep init).FreeMemory =
        init.FreeMemory + (nodes.map NodeMetrics.freeMemory).sum ∧
    (nodes.foldl memStep init).RealMemory =
        init.RealMemory + (nodes.map NodeMetrics.realMemory).sum := by
  induction nodes generalizing init with
  | nil => simp
  | cons node rest ih =>
    simp only [List.foldl_cons, List.map_cons, List.sum_cons]
    obtain ⟨h1, h2, h3⟩ := ih (memStep init node)
    rw [h1, h2, h3]
    simp [memStep, add_assoc]

/-! ### Field-indexed view of partition samples -/

/-- The eight per-partition metric fields, in the emission order of
`Collect` (`nodes.go` lines 210–233). -/
inductive PField where
  | cpus
  | realMemory
  | freeMemory
  | allocMemory
  | allocCpus
  | idleCpus
  | weight
  | cpuLoad
deriving DecidableEq, Repr

def PartitionMetrics.field (m : PartitionMetrics) : PField → ℚ
  | .cpus => m.Cpus
  | .realMemory => m.RealMemory
  | .freeMemory => m.FreeMemory
  | .allocMemory => m.AllocMemory
  | .allocCpus => m.AllocCpus
  | .idleCpus => m.IdleCpus
  | .weight => m.Weight
  | .cpuLoad => m.CpuLoad

/-- The partition-scoped sample constructor for a given field. -/
def mkPartitionMetric (f : PField) (p : String) (v : ℚ) : Metric :=
  match f with
  | .cpus => .partitionCpus p v
  | .realMemory => .partitionRealMemory p v
  | .freeMemory => .partitionFreeMemory p v
  | .allocMemory => .partitionAllocMemory p v
  | .allocCpus => .partitionAllocCpus p v
  | .idleCpus => .partitionIdleCpus p v
  | .weight => .partitionWeight p v
  | .cpuLoad => .partitionCpuLoad p v

theorem PartitionMetrics.zero_field (f : PField) :
    (0 : PartitionMetrics).field f = 0 := by
  cases f <;> rfl

theorem mem_if_singleton {c : Prop} [Decidable c] (x y : Metric) :
    (x ∈ if c then [y] else []) ↔ c ∧ x = y := by
  split <;> simp_all

theorem mem_partitionSamples_iff (f : PField) (p p' : String) (v : ℚ)
    (m : PartitionMetrics) :
    mkPartitionMetric f p v ∈ partitionSamples p' m ↔
      0 < m.field f ∧ p = p' ∧ v = m.field f := by
  cases f <;>
    simp [partitionSamples, mkPartitionMetric, PartitionMetrics.field,
      mem_if_singleton, List.mem_append]

theorem mem_flatMap_partitionSamples_iff
    (ms : List (String × PartitionMetrics)) (hnd : (alistKeys ms).Nodup)
    (p : String) (f : PField) (v : ℚ) :
    (mkPartitionMetric f p v ∈
      ms.flatMap fun pm => partitionSamples pm.1 pm.2) ↔
      ∃ m, alistLookup ms p = some m ∧ 0 < m.field f ∧ v = m.field f := by
  rw [List.mem_flatMap]
  constructor
  · rintro ⟨⟨p', m⟩, hmem, hin⟩
    rw [mem_partitionSamples_iff] at hin
    obtain ⟨hpos, rfl, rfl⟩ := hin
    exact ⟨m, mem_alistLookup ms hnd hmem, hpos, rfl⟩
  · rintro ⟨m, hlk, hpos, rfl⟩
    exact ⟨(p, m), alistLookup_mem ms p m hlk,
      (mem_partitionSamples_iff f p p _ m).mpr ⟨hpos, rfl, rfl⟩⟩

/-! ### Fixture nodes from the specification's end-to-end scenario -/

def node1 : NodeMetrics :=
  { hostname := "node1", cpus := 4, realMemory := 0, freeMemory := 0,
    partitions := ["batch"], state := "idle", allocMemory := 0,
    allocCpus := 0, idleCpus := 0, weight := 0, cpuLoad := 0,
    architecture := "" }

def node2 : NodeMetrics :=
  { hostname := "node2", cpus := 8, realMemory := 0, freeMemory := 0,
    partitions := ["batch", "gpu"], state := "alloc", allocMemory := 0,
    allocCpus := 0, idleCpus := 0, weight := 0, cpuLoad := 0,
    architecture := "" }

/-! ### JSON node entries with optional fields -/

/-- A raw JSON node object: each schema field either present or
absent. -/
structure NodeJson where
  hostname : Option String
  cpus : Option ℚ
  realMemory : Option ℚ
  freeMemory : Option ℚ
  partitions : Option (List String)
  state : Option String
  allocMemory : Option ℚ
  allocCpus : Option ℚ
  idleCpus : Option ℚ
  weight : Option ℚ
  cpuLoad : Option ℚ
  architecture : Option String

/-- Modelled from the spec: the JSON decoding of one node entry is done
by `encoding/json`, which is library code outside this repository; per
spec §4.1 "absent numeric fields decode as zero", and Go's zero values
make an absent string field the empty string and an absent slice field
the empty slice. -/
def decodeNode (j : NodeJson) : NodeMetrics :=
  { hostname := j.hostname.getD ""
    cpus := j.cpus.getD 0
    realMemory := j.realMemory.getD 0
    freeMemory := j.freeMemory.getD 0
    partitions := j.partitions.getD []
    state := j.state.getD ""
    allocMemory := j.allocMemory.getD 0
    allocCpus := j.allocCpus.getD 0
    idleCpus := j.idleCpus.getD 0
    weight := j.weight.getD 0
    cpuLoad := j.cpuLoad.getD 0
    architecture := j.architecture.getD "" }

theorem filter_state_eq_nil_iff (nodes : List NodeMetrics) (s : String) :
    ((nodes.filter fun n => n.state == s) = []) ↔ stateHits nodes s = 0 := by
  induction nodes with
  | nil => simp [stateHits]
  | cons n rest ih =>
    by_cases h : n.state = s
    · simp [List.filter_cons, h, stateHits]
    · simp [List.filter_cons, h, stateHits, ih]

theorem filter_state_cpus_sum (nodes : List NodeMetrics) (s : String) :
    ((nodes.filter fun n => n.state == s).map NodeMetrics.cpus).sum =
      stateCpuSum nodes s := by
  induction nodes with
  | nil => simp [stateCpuSum]
  | cons n rest ih =>
    by_cases h : n.state = s
    · simp [List.filter_cons, h, stateCpuSum, ih]
    · simp [List.filter_cons, h, stateCpuSum, ih]

/-! ### Claim theorems -/

/-- C1 (code evidence): every `Collect` invocation calls the underlying
`SlurmFetcher` exactly once, and neither the emitted samples nor the
number of fetches depends on the payload held by the
`AtomicThrottledCache` — `Collect` never consults `nc.cache`, so the
cache cannot coalesce or suppress fetches. -/
theorem collect_always_fetches_ignores_cache (nc : NodesCollector) :
    (CollectRun nc).2.fetchCount = nc.fetchCount + 1 ∧
    ∀ c', (CollectRun { nc with cache := c' }).1 = (CollectRun nc).1 ∧
      (CollectRun { nc with cache := c' }).2.fetchCount =
        (CollectRun nc).2.fetchCount :=
  ⟨rfl, fun _ => ⟨rfl, rfl⟩⟩

/-- C2: whenever the decoded payload's error list is non-empty,
`parseNodeMetrics` fails with the first entry as the error message and
returns no node records — regardless of the payload's node list. -/
theorem parse_fails_on_source_errors (resp : sinfoResponse) (e : String)
    (es : List String) (h : resp.errors = e :: es) :
    parseNodeMetrics (some resp) = .error (.sourceError e) := by
  simp [parseNodeMetrics, h]

/-- A payload reporting a source error while still carrying node data. -/
def errorFixture : sinfoResponse :=
  { meta := (), errors := ["slurm api error"], nodes := [node1] }

/-- Witness for C2 at a concrete payload whose node list is non-empty. -/
theorem parse_fails_on_source_errors_check :
    parseNodeMetrics (some errorFixture) =
      .error (.sourceError "slurm api error") :=
  parse_fails_on_source_errors errorFixture "slurm api error" [] rfl

/-- C4: a failed fetch or parse increments the error counter by exactly
one and the cycle emits only the counter; a successful cycle leaves the
counter unchanged; in every cycle the counter's current value is the
last sample emitted. -/
theorem collect_error_counter_contract
    (fetched : Except String (Option sinfoResponse)) (c : ℕ) :
    (cycleFails fetched = true →
      Collect fetched c = ([Metric.nodeScrapeErrors (c + 1)], c + 1)) ∧
    (cycleFails fetched = false → (Collect fetched c).2 = c) ∧
    (Collect fetched c).1.getLast? =
      some (Metric.nodeScrapeErrors ((Collect fetched c).2)) := by
  match fetched with
  | .error msg => exact ⟨fun _ => rfl, by simp [cycleFails], rfl⟩
  | .ok payload =>
    match hp : parseNodeMetrics payload with
    | .error err =>
      refine ⟨fun _ => ?_, ?_, ?_⟩ <;> simp [Collect, cycleFails, hp]
    | .ok nodes =>
      refine ⟨?_, fun _ => ?_, ?_⟩
      · intro hfail
        simp [cycleFails, hp] at hfail
      · simp [Collect, hp]
      · simp only [Collect, hp]
        show (_ ++ [Metric.nodeScrapeErrors c]).getLast? =
          some (Metric.nodeScrapeErrors c)
        exact List.getLast?_concat _

/-- Witness for C4: a transport failure with prior counter 3 emits only
the counter, incremented to 4. -/
theorem collect_error_counter_contract_check :
    Collect (.error "fetch failed") 3 = ([Metric.nodeScrapeErrors 4], 4) :=
  (collect_error_counter_contract (.error "fetch failed") 3).1 rfl

/-- C6: every field of the CPU summary and of the memory summary is the
direct sum over the input nodes of the corresponding node field; the
empty sequence yields all-zero summaries and an empty per-state
mapping. -/
theorem summaries_are_direct_sums (nodes : List NodeMetrics) :
    (fetchNodeTotalCpuMetrics nodes).Total = (nodes.map NodeMetrics.cpus).sum ∧
    (fetchNodeTotalCpuMetrics nodes).Idle =
      (nodes.map NodeMetrics.idleCpus).sum ∧
    (fetchNodeTotalCpuMetrics nodes).Load =
      (nodes.map NodeMetrics.cpuLoad).sum ∧
    (fetchNodeTotalMemMetrics nodes).AllocMemory =
      (nodes.map NodeMetrics.allocMemory).sum ∧
    (fetchNodeTotalMemMetrics nodes).FreeMemory =
      (nodes.map NodeMetrics.freeMemory).sum ∧
    (fetchNodeTotalMemMetrics nodes).RealMemory =
      (nodes.map NodeMetrics.realMemory).sum ∧
    fetchNodeTotalCpuMetrics [] =
      { Total := 0, Idle := 0, Load := 0, PerState := [] } ∧
    fetchNodeTotalMemMetrics [] =
      { AllocMemory := 0, FreeMemory := 0, RealMemory := 0 } := by
  obtain ⟨h1, h2, h3⟩ := foldl_cpuStep_fields nodes
    { Total := 0, Idle := 0, Load := 0, PerState := [] }
  obtain ⟨h4, h5, h6⟩ := foldl_memStep_fields nodes
    { AllocMemory := 0, FreeMemory := 0, RealMemory := 0 }
  refine ⟨?_, ?_, ?_, ?_, ?_, ?_, rfl, rfl⟩ <;>
    simp [fetchNodeTotalCpuMetrics, fetchNodeTotalMemMetrics,
      h1, h2, h3, h4, h5, h6]

/-- C7: the per-state CPU mapping maps a state string, verbatim, to the
sum of the `cpus` field of exactly the nodes whose `state` equals that
string; states reported by no node are absent. -/
theorem cpus_per_state_exact (nodes : List NodeMetrics) (s : String) :
    alistLookup (fetchNodeTotalCpuMetrics nodes).PerState s =
      if (nodes.filter fun n => n.state == s) = [] then none
      else
        some (((nodes.filter fun n => n.state == s).map
          NodeMetrics.cpus).sum) := by
  rw [perState_fetchNodeTotalCpuMetrics]
  have hfil := filter_state_eq_nil_iff nodes s
  have hsum := filter_state_cpus_sum nodes s
  by_cases h0 : stateHits nodes s = 0
  · rw [if_pos h0, if_pos (hfil.mpr h0)]
  · rw [if_neg h0, if_neg (fun hh => h0 (hfil.mp hh)), hsum]

/-- C8: the partition aggregation is order independent — permuting the
node sequence leaves every partition's lookup (hence the key set and
all eight accumulated totals) unchanged. -/
theorem partition_aggregates_perm_invariant (l₁ l₂ : List NodeMetrics)
    (h : l₁.Perm l₂) (p : String) :
    alistLookup (fetchNodePartitionMetrics l₁) p =
      alistLookup (fetchNodePartitionMetrics l₂) p := by
  rw [alistLookup_fetchNodePartitionMetrics,
    alistLookup_fetchNodePartitionMetrics]
  have hhits : partitionHits l₁ p = partitionHits l₂ p := by
    have hperm := (h.map fun n => countOcc p n.partitions).sum_eq
    simpa [partitionHits] using hperm
  have hcontrib : partitionContribution l₁ p = partitionContribution l₂ p := by
    have hperm := (h.map fun n => countOcc p n.partitions • nodeFields n).sum_eq
    simpa [partitionContribution] using hperm
  rw [hhits, hcontrib]

/-- Witness for C8 on the two-node fixture, swapped. -/
theorem partition_aggregates_perm_invariant_check :
    alistLookup (fetchNodePartitionMetrics [node1, node2]) "batch" =
      alistLookup (fetchNodePartitionMetrics [node2, node1]) "batch" :=
  partition_aggregates_perm_invariant [node1, node2] [node2, node1]
    (List.Perm.swap node2 node1 []) "batch"

/-- C9: the key set of the partition aggregation is exactly the union
of the input nodes' partition lists (so a node with an empty partition
list contributes to no aggregate), and the empty sequence yields the
empty mapping. -/
theorem partition_keys_are_union (nodes : List NodeMetrics) (q : String) :
    (q ∈ alistKeys (fetchNodePartitionMetrics nodes) ↔
      ∃ n ∈ nodes, q ∈ n.partitions) ∧
    fetchNodePartitionMetrics [] = [] := by
  refine ⟨?_, rfl⟩
  rw [alistKeys_mem_iff, alistLookup_fetchNodePartitionMetrics]
  by_cases h0 : partitionHits nodes q = 0
  · simp only [if_pos h0, Option.isSome_none, Bool.false_eq_true, false_iff]
    rintro ⟨n, hn, hq⟩
    exact (partitionHits_eq_zero_iff nodes q).mp h0 n hn hq
  · simp only [if_neg h0, Option.isSome_some, true_iff]
    by_contra hc
    push_neg at hc
    exact h0 ((partitionHits_eq_zero_iff nodes q).mpr hc)

/-- Witness for C9's key-set characterization at the fixture. -/
theorem partition_keys_are_union_check :
    ("gpu" ∈ alistKeys (fetchNodePartitionMetrics [node1, node2]) ↔
      ∃ n ∈ [node1, node2], "gpu" ∈ n.partitions) ∧
    fetchNodePartitionMetrics [] = [] :=
  partition_keys_are_union [node1, node2] "gpu"

theorem getD_alistLookup_fetch (nodes : List NodeMetrics) (q : String) :
    (alistLookup (fetchNodePartitionMetrics nodes) q).getD 0 =
      partitionContribution nodes q := by
  rw [alistLookup_fetchNodePartitionMetrics]
  by_cases h0 : partitionHits nodes q = 0
  · simp [h0, partitionContribution_eq_zero nodes q h0]
  · simp [h0]

/-- C3: in a successful cycle, `Collect` emits a sample for a
(partition, field) pair exactly when that field's accumulated value is
strictly positive, and the emitted value is the accumulated value;
zero-valued partition fields are suppressed. -/
theorem collect_partition_zero_suppression (resp : sinfoResponse) (c : ℕ)
    (p : String) (f : PField) (v : ℚ) (herr : resp.errors = []) :
    mkPartitionMetric f p v ∈ (Collect (.ok (some resp)) c).1 ↔
      v = ((alistLookup (fetchNodePartitionMetrics resp.nodes) p).getD
          0).field f ∧ 0 < v := by
  have hparse : parseNodeMetrics (some resp) = .ok resp.nodes := by
    simp [parseNodeMetrics, herr]
  have hnd := nodupKeys_fetchNodePartitionMetrics resp.nodes
  have hsplit : (mkPartitionMetric f p v ∈ (Collect (.ok (some resp)) c).1) ↔
      mkPartitionMetric f p v ∈ (fetchNodePartitionMetrics resp.nodes).flatMap
        (fun pm => partitionSamples pm.1 pm.2) := by
    simp only [Collect, hparse]
    cases f <;> simp [mkPartitionMetric, List.mem_append]
  rw [hsplit,
    mem_flatMap_partitionSamples_iff (fetchNodePartitionMetrics resp.nodes)
      hnd p f v]
  constructor
  · rintro ⟨m, hlk, hpos, rfl⟩
    rw [hlk]
    exact ⟨rfl, hpos⟩
  · rintro ⟨rfl, hpos⟩
    rcases hlk : alistLookup (fetchNodePartitionMetrics resp.nodes) p
      with _ | m
    · rw [hlk] at hpos
      simp [PartitionMetrics.zero_field] at hpos
    · rw [hlk] at hpos
      exact ⟨m, rfl, by simpa using hpos, by simp⟩

/-- A successfully decoded payload for the two-node fixture. -/
def fixtureResponse : sinfoResponse :=
  { meta := (), errors := [], nodes := [node1, node2] }

/-- Witness for C3: the fixture emits the batch-partition CPU sample
with value 12. -/
theorem collect_partition_zero_suppression_check :
    mkPartitionMetric PField.cpus "batch" 12 ∈
      (Collect (.ok (some fixtureResponse)) 0).1 :=
  (collect_partition_zero_suppression fixtureResponse 0 "batch"
      PField.cpus 12 rfl).mpr
    (by constructor
        · norm_num [fixtureResponse, fetchNodePartitionMetrics, partitionStep,
            upsertPartition, addNodeToPartition, alistLookup, node1, node2,
            PartitionMetrics.field]
        · norm_num)

/-- C5: a node contributes its full eight field values to the aggregate
of every partition it lists (no splitting), and on the specification's
two-node fixture: cluster total cpus is 12, the per-state mapping is
exactly idle ↦ 4, alloc ↦ 8, partition batch has 12 cpus and partition
gpu has 8. -/
theorem full_contribution_no_splitting :
    (∀ (l : List NodeMetrics) (n : NodeMetrics) (p : String),
      countOcc p n.partitions = 1 →
      (alistLookup (fetchNodePartitionMetrics (l ++ [n])) p).getD 0 =
        (alistLookup (fetchNodePartitionMetrics l) p).getD 0 +
          nodeFields n) ∧
    (fetchNodeTotalCpuMetrics [node1, node2]).Total = 12 ∧
    (fetchNodeTotalCpuMetrics [node1, node2]).PerState =
      [("idle", 4), ("alloc", 8)] ∧
    ((alistLookup (fetchNodePartitionMetrics [node1, node2])
        "batch").getD 0).Cpus = 12 ∧
    ((alistLookup (fetchNodePartitionMetrics [node1, node2])
        "gpu").getD 0).Cpus = 8 := by
  refine ⟨?_, ?_, ?_, ?_, ?_⟩
  · intro l n p hc
    rw [getD_alistLookup_fetch, getD_alistLookup_fetch]
    simp [partitionContribution, hc]
  · norm_num [fetchNodeTotalCpuMetrics, cpuStep, node1, node2]
  · norm_num [fetchNodeTotalCpuMetrics, cpuStep, bumpState, node1, node2]
    decide
  · norm_num [fetchNodePartitionMetrics, partitionStep, upsertPartition,
      addNodeToPartition, alistLookup, node1, node2]
  · have hbg : ¬("batch" = "gpu") := by decide
    norm_num [fetchNodePartitionMetrics, partitionStep, upsertPartition,
      addNodeToPartition, alistLookup, node1, node2, hbg]

/-- Witness for C5's general clause: appending node2 adds its full
fields to the gpu aggregate. -/
theorem full_contribution_no_splitting_check :
    (alistLookup (fetchNodePartitionMetrics ([node1] ++ [node2]))
        "gpu").getD 0 =
      (alistLookup (fetchNodePartitionMetrics [node1]) "gpu").getD 0 +
        nodeFields node2 :=
  full_contribution_no_splitting.1 [node1] node2 "gpu" (by decide)

/-- C10: a node entry whose `state` field is absent decodes with the
empty string as state; its cpus are accumulated into the per-state
bucket keyed by the empty string, and a successful cycle emits a
per-state sample labeled with the empty string. -/
theorem absent_state_empty_bucket (j : NodeJson)
    (pre post : List NodeMetrics) (c : ℕ) (hstate : j.state = none) :
    (decodeNode j).state = "" ∧
    (alistLookup
      (fetchNodeTotalCpuMetrics (pre ++ decodeNode j :: post)).PerState
      "").isSome ∧
    Metric.cpusPerState ""
        ((alistLookup
          (fetchNodeTotalCpuMetrics (pre ++ decodeNode j :: post)).PerState
          "").getD 0) ∈
      (Collect (.ok (some
        { meta := (), errors := [], nodes := pre ++ decodeNode j :: post }))
        c).1 := by
  have hdec : (decodeNode j).state = "" := by simp [decodeNode, hstate]
  have hhits : stateHits (pre ++ decodeNode j :: post) "" ≠ 0 := by
    simp only [stateHits, List.map_append, List.sum_append, List.map_cons,
      List.sum_cons, hdec, eq_self_iff_true, if_true]
    omega
  have hlk : alistLookup
      (fetchNodeTotalCpuMetrics (pre ++ decodeNode j :: post)).PerState "" =
      some (stateCpuSum (pre ++ decodeNode j :: post) "") := by
    rw [perState_fetchNodeTotalCpuMetrics]
    simp [hhits]
  refine ⟨hdec, by simp [hlk], ?_⟩
  have hmem : ("", stateCpuSum (pre ++ decodeNode j :: post) "") ∈
      (fetchNodeTotalCpuMetrics (pre ++ decodeNode j :: post)).PerState :=
    alistLookup_mem _ _ _ hlk
  simp only [Collect, parseNodeMetrics]
  rw [hlk]
  simp only [Option.getD_some, List.mem_append]
  refine Or.inl (Or.inl (Or.inr ?_))
  exact List.mem_map.mpr ⟨("", stateCpuSum (pre ++ decodeNode j :: post) ""),
    hmem, rfl⟩

/-- A JSON node entry with every field absent. -/
def bareNodeJson : NodeJson :=
  { hostname := none, cpus := none, realMemory := none, freeMemory := none,
    partitions := none, state := none, allocMemory := none,
    allocCpus := none, idleCpus := none, weight := none, cpuLoad := none,
    architecture := none }

/-- Witness for C10 at the all-absent node entry. -/
theorem absent_state_empty_bucket_check :
    (decodeNode bareNodeJson).state = "" ∧
    (alistLookup
      (fetchNodeTotalCpuMetrics ([] ++ decodeNode bareNodeJson :: [])).PerState
      "").isSome ∧
    Metric.cpusPerState ""
        ((alistLookup
          (fetchNodeTotalCpuMetrics
            ([] ++ decodeNode bareNodeJson :: [])).PerState "").getD 0) ∈
      (Collect (.ok (some
        { meta := (), errors := [],
          nodes := [] ++ decodeNode bareNodeJson :: [] })) 0).1 :=
  absent_state_empty_bucket bareNodeJson [] [] 0 rfl
